import Mathlib

/-!
Shallow embedding of `src/paritydb/src/collision.rs`.

The collision log is an append-only file of records `(key, value-or-tombstone)`
backed by an in-memory ordered index from keys to file positions.  We model:

* a byte file as `List Nat` (each element one byte),
* the append-only write handle as a `WFile`: its bytes plus an optional
  device capacity after which appends fail (this models I/O write errors;
  reads from an in-memory byte list can only fail by running out of bytes,
  which is exactly `io::ErrorKind::UnexpectedEof`),
* `BTreeMap<Vec<u8>, IndexEntry>` as an association list sorted strictly
  ascending in byte-lexicographic key order,
* fallible operations with `Except IOKind`; a Rust method that mutates
  `self` and returns `Result` becomes a function returning the result
  paired with the successor state.

The write handle is modelled together with its seek cursor, because the
source opens the file with `append(true)` (`O_APPEND`): every write lands at
the current end of file, but `seek(SeekFrom::Current(0))` reports the
handle's cursor, which is 0 right after `open` and only reaches end-of-file
after the first write.  `LogEntry::write`/`write_deleted` record this
reported cursor as the record's position, exactly as the source does — so
the position recorded by the first append after opening a non-empty log is
0, not the offset at which the record actually begins.
-/

set_option maxHeartbeats 1000000

namespace ParityDB

/-- Decidable equality for `Except`, used to evaluate the model on concrete
inputs. -/
instance {ε α : Type} [DecidableEq ε] [DecidableEq α] : DecidableEq (Except ε α) := fun a b =>
  match a, b with
  | .ok x, .ok y =>
    if h : x = y then .isTrue (by rw [h]) else .isFalse (by intro hc; cases hc; exact h rfl)
  | .error x, .error y =>
    if h : x = y then .isTrue (by rw [h]) else .isFalse (by intro hc; cases hc; exact h rfl)
  | .ok _, .error _ => .isFalse (by intro hc; cases hc)
  | .error _, .ok _ => .isFalse (by intro hc; cases hc)

/-- The two classes of I/O error the code distinguishes: `unexpectedEof`
(`io::ErrorKind::UnexpectedEof`) and everything else. -/
inductive IOKind where
  | unexpectedEof
  | other
deriving DecidableEq

/-- `IndexEntry { position, size }`: position and total serialized size of the
most recent live record of a key. -/
structure IndexEntry where
  position : Nat
  size : Nat
deriving DecidableEq

/-- One decoded log record: the position at which decoding started, the key,
and the value (`none` encodes a tombstone). -/
structure LogEntry where
  position : Nat
  key : List Nat
  value : Option (List Nat)
deriving DecidableEq

/-- Little-endian bytes of `n as u32` (the cast truncates modulo `2^32`). -/
def u32le (n : Nat) : List Nat :=
  [n % 256, n / 256 % 256, n / 65536 % 256, n / 16777216 % 256]

/-- Decode a little-endian `u32` from the first four bytes of a list.
Callers always supply exactly four bytes (`readExact _ _ 4`). -/
def decodeU32 : List Nat → Nat
  | b0 :: b1 :: b2 :: b3 :: _ => b0 + 256 * b1 + 65536 * b2 + 16777216 * b3
  | _ => 0

/-- `key_size(4) + value_size(4)`. -/
def LogEntry.ENTRY_STATIC_SIZE : Nat := 8

/-- `!0u32`, used as `value_size` to represent a deleted entry. -/
def LogEntry.ENTRY_TOMBSTONE : Nat := 4294967295

/-- `LogEntry::len`: total serialized byte length of an insert record. -/
def LogEntry.len (key value : List Nat) : Nat :=
  LogEntry.ENTRY_STATIC_SIZE + key.length + value.length

/-- `read_exact` on an in-memory byte list positioned at `pos`: succeeds with
the `n` bytes starting at `pos` and the new position iff they all exist,
otherwise fails with `UnexpectedEof`. -/
def readExact (file : List Nat) (pos n : Nat) : Except IOKind (List Nat × Nat) :=
  if pos + n ≤ file.length then .ok ((file.drop pos).take n, pos + n)
  else .error .unexpectedEof

/-- `LogEntry::read`: decode one record starting at `pos`.  Reads the key
length, the key bytes, the value length, and — unless the value length is the
tombstone sentinel — the value bytes.  Returns the entry and the position just
past it. -/
def LogEntry.read (file : List Nat) (pos : Nat) : Except IOKind (LogEntry × Nat) :=
  match readExact file pos 4 with
  | .error e => .error e
  | .ok (ksBytes, p1) =>
    match readExact file p1 (decodeU32 ksBytes) with
    | .error e => .error e
    | .ok (key, p2) =>
      match readExact file p2 4 with
      | .error e => .error e
      | .ok (vsBytes, p3) =>
        if decodeU32 vsBytes = LogEntry.ENTRY_TOMBSTONE then
          .ok ({ position := pos, key := key, value := none }, p3)
        else
          match readExact file p3 (decodeU32 vsBytes) with
          | .error e => .error e
          | .ok (value, p4) => .ok ({ position := pos, key := key, value := some value }, p4)

/-- The append-only write handle opened with `append(true)` (`O_APPEND`):
the file's bytes, the handle's seek cursor, and an optional device capacity
modelling the environment (an append whose result would exceed the capacity
fails with an I/O error and writes nothing).  Per `O_APPEND` semantics the
cursor is 0 right after opening the file and is moved to the end of the file
by each write; `seek(SeekFrom::Current(0))` reports the cursor as it is, so
on a freshly opened non-empty log it reports 0, not the end of the file. -/
structure WFile where
  bytes : List Nat
  cursor : Nat
  cap : Option Nat
deriving DecidableEq

/-- One `write_all`/`write_u32` call on the append-only handle: the bytes
are appended at the end of the file regardless of the cursor (`O_APPEND`),
and the cursor ends up at the new end of the file. -/
def writeBytes (f : WFile) (bs : List Nat) : Except IOKind Unit × WFile :=
  match f.cap with
  | none =>
    (.ok (), { f with bytes := f.bytes ++ bs, cursor := (f.bytes ++ bs).length })
  | some c =>
    if f.bytes.length + bs.length ≤ c then
      (.ok (), { f with bytes := f.bytes ++ bs, cursor := (f.bytes ++ bs).length })
    else (.error .other, f)

/-- The bytes `LogEntry::write` appends for an insert record. -/
def entryBytes (k v : List Nat) : List Nat :=
  u32le k.length ++ k ++ u32le v.length ++ v

/-- The bytes `LogEntry::write_deleted` appends for a tombstone record. -/
def tombstoneBytes (k : List Nat) : List Nat :=
  u32le k.length ++ k ++ u32le LogEntry.ENTRY_TOMBSTONE

/-- `LogEntry::write`: append key length, key, value length, value; return
`writer.seek(SeekFrom::Current(0))`, i.e. the handle's cursor — which equals
the offset at which the record actually begins only if the handle has
already written since opening (or the file was empty).  Each failed chunk
write propagates its error immediately (the `?` operator). -/
def LogEntry.write (f : WFile) (k v : List Nat) : Except IOKind Nat × WFile :=
  let position := f.cursor
  match writeBytes f (u32le k.length) with
  | (.error e, f1) => (.error e, f1)
  | (.ok _, f1) =>
    match writeBytes f1 k with
    | (.error e, f2) => (.error e, f2)
    | (.ok _, f2) =>
      match writeBytes f2 (u32le v.length) with
      | (.error e, f3) => (.error e, f3)
      | (.ok _, f3) =>
        match writeBytes f3 v with
        | (.error e, f4) => (.error e, f4)
        | (.ok _, f4) => (.ok position, f4)

/-- `LogEntry::write_deleted`: append key length, key, and the tombstone
sentinel as value length; return `writer.seek(SeekFrom::Current(0))`, the
handle's cursor (its caller discards it). -/
def LogEntry.write_deleted (f : WFile) (k : List Nat) : Except IOKind Nat × WFile :=
  let position := f.cursor
  match writeBytes f (u32le k.length) with
  | (.error e, f1) => (.error e, f1)
  | (.ok _, f1) =>
    match writeBytes f1 k with
    | (.error e, f2) => (.error e, f2)
    | (.ok _, f2) =>
      match writeBytes f2 (u32le LogEntry.ENTRY_TOMBSTONE) with
      | (.error e, f3) => (.error e, f3)
      | (.ok _, f3) => (.ok position, f3)

/-- Byte-lexicographic strict order on keys, the `Ord` instance of
`Vec<u8>` that `BTreeMap` sorts by. -/
def byteLt : List Nat → List Nat → Bool
  | _, [] => false
  | [], _ :: _ => true
  | a :: as, b :: bs => if a < b then true else if a = b then byteLt as bs else false

/-- The in-memory index: an association list sorted strictly ascending by
byte-lexicographic key order (the model of `BTreeMap<Vec<u8>, IndexEntry>`). -/
abbrev IndexMap := List (List Nat × IndexEntry)

/-- `BTreeMap::get`. -/
def mapGet : IndexMap → List Nat → Option IndexEntry
  | [], _ => none
  | (k', e) :: rest, k => if k = k' then some e else mapGet rest k

/-- `BTreeMap::insert` on a sorted association list: place the new binding
before the first strictly greater key, replacing an equal key. -/
def mapInsert : IndexMap → List Nat → IndexEntry → IndexMap
  | [], k, e => [(k, e)]
  | (k', e') :: rest, k, e =>
    if byteLt k k' then (k, e) :: (k', e') :: rest
    else if k = k' then (k, e) :: rest
    else (k', e') :: mapInsert rest k e

/-- `BTreeMap::remove`: returns the removed value (if any) together with the
map without that binding. -/
def mapExtract : IndexMap → List Nat → Option IndexEntry × IndexMap
  | [], _ => (none, [])
  | (k', e') :: rest, k =>
    if k = k' then (some e', rest)
    else
      let r := mapExtract rest k
      (r.1, (k', e') :: r.2)

/-- The `Collision` struct: in-memory index, numeric prefix (`pfx`), and the
append-only write handle.  The file path is implicit: reads always see the
same bytes the handle has written. -/
structure CState where
  index : IndexMap
  pfx : Nat
  file : WFile
deriving DecidableEq

/-- `transaction::Operation`.  Modelled from the spec: the `transaction`
module is not under `src/`; §6 specifies "a tagged operation value with
exactly two variants, `Insert(key, value)` and `Delete(key)`". -/
inductive Operation where
  | Insert (key value : List Nat)
  | Delete (key : List Nat)
deriving DecidableEq

/-- `Collision::insert`: append an insert record; on success map the key to
the position/size of the new record.  On a failed append the error is
returned and the index is not touched. -/
def Collision.insert (s : CState) (k v : List Nat) : Except IOKind Unit × CState :=
  match LogEntry.write s.file k v with
  | (.ok position, f') =>
    let e : IndexEntry := { position := position, size := LogEntry.len k v }
    (.ok (), { s with file := f', index := mapInsert s.index k e })
  | (.error e, f') => (.error e, { s with file := f' })

/-- `Collision::delete`: remove the key from the index; only if it was
present, append a tombstone record (whose returned position is discarded). -/
def Collision.delete (s : CState) (k : List Nat) : Except IOKind Unit × CState :=
  match mapExtract s.index k with
  | (some _, idx') =>
    match LogEntry.write_deleted s.file k with
    | (.ok _, f') => (.ok (), { s with index := idx', file := f' })
    | (.error e, f') => (.error e, { s with index := idx', file := f' })
  | (none, idx') => (.ok (), { s with index := idx' })

/-- Outcome of `Collision::get`: `Ok(Some(v))`, `Ok(None)`, `Err(e)`, or a
runtime panic (the `assert!(entry.key == key)` or the
`expect("index only points to live entries; qed")`). -/
inductive GetOutcome where
  | found (v : List Nat)
  | notFound
  | ioError (e : IOKind)
  | panicked
deriving DecidableEq

/-- `Collision::get`: on an index hit, seek a fresh read handle to the stored
position, decode one record, assert the decoded key matches, and expect a
live (non-tombstone) value. -/
def Collision.get (s : CState) (k : List Nat) : GetOutcome :=
  match mapGet s.index k with
  | none => .notFound
  | some e =>
    match LogEntry.read s.file.bytes e.position with
    | .error er => .ioError er
    | .ok (entry, _) =>
      if entry.key = k then
        match entry.value with
        | some v => .found v
        | none => .panicked
      else .panicked

/-- `Collision::apply`: dispatch an `Operation` to `insert`/`delete`. -/
def Collision.apply (s : CState) (op : Operation) : Except IOKind Unit × CState :=
  match op with
  | .Delete k => Collision.delete s k
  | .Insert k v => Collision.insert s k v

/-- `Collision::create`: fresh empty log file and empty index (the
`AlreadyExists`/directory handling is environmental and not modelled). -/
def Collision.createState (cap : Option Nat) (p : Nat) : CState :=
  { index := [], pfx := p, file := { bytes := [], cursor := 0, cap := cap } }

/-- One step of `LogIterator` (`impl Iterator for LogIterator`), iterated with
fuel: a read failing with `UnexpectedEof` ends the sequence cleanly; any other
read error is yielded as a final error item; a decoded entry is yielded and
scanning continues after it.  The second component is the position at which
scanning stopped.  Fuel `file.length + 1` always suffices because every
decoded record occupies at least 8 bytes. -/
def scanItems : Nat → List Nat → Nat → List (Except IOKind LogEntry) × Nat
  | 0, _, pos => ([], pos)
  | fuel + 1, file, pos =>
    match LogEntry.read file pos with
    | .error .unexpectedEof => ([], pos)
    | .error e => ([.error e], pos)
    | .ok (e, p') =>
      let rest := scanItems fuel file p'
      (.ok e :: rest.1, rest.2)

/-- The item sequence produced by `LogIterator` over `file` starting at `pos`. -/
def logItems (file : List Nat) (pos : Nat) : List (Except IOKind LogEntry) :=
  (scanItems (file.length + 1) file pos).1

/-- The fold step of `Collision::build_index`: an insert record binds its key
to its position and serialized size; a tombstone removes its key. -/
def buildStep (index : IndexMap) (e : LogEntry) : IndexMap :=
  match e.value with
  | some v => mapInsert index e.key { position := e.position, size := LogEntry.len e.key v }
  | none => (mapExtract index e.key).2

/-- The loop body of `Collision::build_index`: fold the scanned items,
propagating the first error item (`let entry = entry?`). -/
def buildIndexItems : List (Except IOKind LogEntry) → IndexMap → Except IOKind IndexMap
  | [], idx => .ok idx
  | .error e :: _, _ => .error e
  | .ok entry :: rest, idx => buildIndexItems rest (buildStep idx entry)

/-- `Collision::build_index`: scan the whole file and fold the records. -/
def Collision.build_index (file : List Nat) : Except IOKind IndexMap :=
  buildIndexItems (logItems file 0) []

/-- `Collision::open` on an existing file: rebuild the index by replay.  The
absent-file (`Ok(None)`) and other open failures are environmental and not
modelled; `cap`/`p` supply the reopened handle's capacity and prefix.  The
freshly opened append handle's cursor is 0 — no write has happened yet. -/
def Collision.openState (bytes : List Nat) (cap : Option Nat) (p : Nat) :
    Except IOKind CState :=
  match Collision.build_index bytes with
  | .ok idx =>
    .ok { index := idx, pfx := p, file := { bytes := bytes, cursor := 0, cap := cap } }
  | .error e => .error e

/-- The index is strictly ascending in byte-lexicographic key order. -/
abbrev SortedMap (m : IndexMap) : Prop :=
  m.Pairwise fun a b => byteLt a.1 b.1 = true

/-- One index entry is backed by the log: decoding at its position succeeds,
yields the mapping key, and yields a live (non-tombstone) value. -/
def entryConsistent (file : List Nat) (p : List Nat × IndexEntry) : Bool :=
  match LogEntry.read file p.2.position with
  | .ok (r, _) => r.key == p.1 && r.value.isSome
  | .error _ => false

/-- The index/log consistency invariant of §3/§7: every entry the index
holds is backed by a live record with the same key. -/
abbrev IndexConsistent (s : CState) : Prop :=
  ∀ p ∈ s.index, entryConsistent s.file.bytes p = true

/-- One yielded item of `CollisionLogIterator`: a decoded live pair, a
surfaced read error, or a panic from the `expect` on a tombstone. -/
inductive IterItem where
  | ok (k v : List Nat)
  | err (e : IOKind)
  | panicked
deriving DecidableEq

/-- What `CollisionLogIterator::next` yields for one index entry. -/
def itemAt (file : List Nat) (e : IndexEntry) : IterItem :=
  match LogEntry.read file e.position with
  | .error er => .err er
  | .ok (entry, _) =>
    match entry.value with
    | some v => .ok entry.key v
    | none => .panicked

/-- `Collision::iter`: walk the index entries in ascending key order, seeking
to and decoding one record per entry. -/
def Collision.iterItems (file : List Nat) (m : IndexMap) : List IterItem :=
  m.map fun p => itemAt file p.2

/-- The 32-bit value-length field of the record starting at `p` whose key has
length `klen`: the four bytes after the key-length field and the key. -/
def valueSizeField (bytes : List Nat) (p klen : Nat) : Nat :=
  decodeU32 ((bytes.drop (p + 4 + klen)).take 4)

end ParityDB

namespace ParityDB

/-! ### Order lemmas for `byteLt` -/

theorem byteLt_irrefl (k : List Nat) : byteLt k k = false := by
  induction k with
  | nil => rfl
  | cons a t ih => simp [byteLt, ih]

theorem byteLt_ne {a b : List Nat} (h : byteLt a b = true) : a ≠ b := by
  intro he
  subst he
  rw [byteLt_irrefl] at h
  exact Bool.noConfusion h

/-! ### Association-list map lemmas -/

theorem mapExtract_fst (m : IndexMap) (k : List Nat) : (mapExtract m k).1 = mapGet m k := by
  induction m with
  | nil => rfl
  | cons p rest ih =>
    obtain ⟨k', e'⟩ := p
    simp only [mapExtract, mapGet]
    by_cases h : k = k' <;> simp [h, ih]

theorem mapExtract_absent {m : IndexMap} {k : List Nat} (h : mapGet m k = none) :
    mapExtract m k = (none, m) := by
  induction m with
  | nil => rfl
  | cons p rest ih =>
    obtain ⟨k', e'⟩ := p
    simp only [mapGet] at h
    by_cases hk : k = k'
    · simp [hk] at h
    · simp only [if_neg hk] at h
      simp [mapExtract, hk, ih h]

theorem mapGet_mem {m : IndexMap} {k : List Nat} {e : IndexEntry} (h : mapGet m k = some e) :
    (k, e) ∈ m := by
  induction m with
  | nil => simp [mapGet] at h
  | cons p rest ih =>
    obtain ⟨k0, e0⟩ := p
    simp only [mapGet] at h
    by_cases hk : k = k0
    · simp only [if_pos hk] at h
      cases h
      subst hk
      exact List.mem_cons_self _ _
    · simp only [if_neg hk] at h
      exact List.mem_cons_of_mem _ (ih h)

theorem mapGet_eq_none {m : IndexMap} {k : List Nat} (h : ∀ p ∈ m, p.1 ≠ k) :
    mapGet m k = none := by
  induction m with
  | nil => rfl
  | cons p rest ih =>
    obtain ⟨k0, e0⟩ := p
    have hk : k ≠ k0 := fun he => h (k0, e0) (List.mem_cons_self _ _) he.symm
    simp only [mapGet, if_neg hk]
    exact ih fun q hq => h q (List.mem_cons_of_mem _ hq)

theorem mapGet_mapExtract_self {m : IndexMap} {k : List Nat} (hs : SortedMap m) :
    mapGet (mapExtract m k).2 k = none := by
  induction m with
  | nil => rfl
  | cons p rest ih =>
    obtain ⟨k0, e0⟩ := p
    replace hs := List.pairwise_cons.mp hs
    simp only [mapExtract]
    by_cases hk : k = k0
    · simp only [if_pos hk]
      subst hk
      exact mapGet_eq_none fun q hq => Ne.symm (byteLt_ne (hs.1 q hq))
    · simp only [if_neg hk, mapGet]
      exact ih hs.2

end ParityDB

namespace ParityDB

/-! ### Codec lemmas -/

theorem u32le_length (n : Nat) : (u32le n).length = 4 := by
  simp [u32le]

theorem decodeU32_u32le {n : Nat} (h : n < 4294967296) : decodeU32 (u32le n) = n := by
  simp only [u32le, decodeU32]
  omega

theorem entryBytes_length (k v : List Nat) :
    (entryBytes k v).length = 8 + k.length + v.length := by
  simp only [entryBytes, List.length_append, u32le_length]
  omega

theorem tombstoneBytes_length (k : List Nat) :
    (tombstoneBytes k).length = 8 + k.length := by
  simp only [tombstoneBytes, List.length_append, u32le_length]
  omega

theorem readExact_ok {file : List Nat} {pos n : Nat} {bs : List Nat} {p' : Nat}
    (h : readExact file pos n = .ok (bs, p')) :
    p' = pos + n ∧ pos + n ≤ file.length ∧ bs = (file.drop pos).take n := by
  unfold readExact at h
  split at h
  · simp only [Except.ok.injEq, Prod.mk.injEq] at h
    exact ⟨h.2.symm, ‹_›, h.1.symm⟩
  · simp at h

theorem readExact_error {file : List Nat} {pos n : Nat} {e : IOKind}
    (h : readExact file pos n = .error e) :
    e = .unexpectedEof ∧ file.length < pos + n := by
  unfold readExact at h
  split at h
  · simp at h
  · simp only [Except.error.injEq] at h
    exact ⟨h.symm, by omega⟩

theorem readExact_oob {file : List Nat} {pos n : Nat} (h : file.length < pos + n) :
    readExact file pos n = .error .unexpectedEof := by
  unfold readExact
  rw [if_neg (by omega)]

theorem readExact_chunk (pre chunk rest : List Nat) :
    readExact (pre ++ (chunk ++ rest)) pre.length chunk.length =
      .ok (chunk, pre.length + chunk.length) := by
  unfold readExact
  rw [if_pos (by simp only [List.length_append]; omega)]
  rw [List.drop_left, List.take_append_of_le_length (Nat.le_refl _), List.take_length]

/-! ### Reading a freshly appended record -/

theorem read_entry_record (pre k v : List Nat) (hk : k.length < 4294967296)
    (hv : v.length < LogEntry.ENTRY_TOMBSTONE) :
    LogEntry.read (pre ++ entryBytes k v) pre.length =
      .ok ({ position := pre.length, key := k, value := some v },
           pre.length + (entryBytes k v).length) := by
  have hassoc : pre ++ entryBytes k v
      = pre ++ (u32le k.length ++ (k ++ (u32le v.length ++ v))) := by
    simp [entryBytes, List.append_assoc]
  have h1 : readExact (pre ++ entryBytes k v) pre.length 4
      = .ok (u32le k.length, pre.length + 4) := by
    have := readExact_chunk pre (u32le k.length) (k ++ (u32le v.length ++ v))
    rw [u32le_length] at this
    rw [hassoc]
    exact this
  have hassoc2 : pre ++ entryBytes k v
      = (pre ++ u32le k.length) ++ (k ++ (u32le v.length ++ v)) := by
    simp [entryBytes, List.append_assoc]
  have h2 : readExact (pre ++ entryBytes k v) (pre.length + 4) k.length
      = .ok (k, pre.length + 4 + k.length) := by
    have := readExact_chunk (pre ++ u32le k.length) k (u32le v.length ++ v)
    rw [List.length_append, u32le_length] at this
    rw [hassoc2]
    exact this
  have hassoc3 : pre ++ entryBytes k v
      = ((pre ++ u32le k.length) ++ k) ++ (u32le v.length ++ v) := by
    simp [entryBytes, List.append_assoc]
  have h3 : readExact (pre ++ entryBytes k v) (pre.length + 4 + k.length) 4
      = .ok (u32le v.length, pre.length + 4 + k.length + 4) := by
    have := readExact_chunk ((pre ++ u32le k.length) ++ k) (u32le v.length) v
    rw [u32le_length, List.length_append, List.length_append, u32le_length] at this
    rw [hassoc3]
    exact this
  have hassoc4 : pre ++ entryBytes k v
      = (((pre ++ u32le k.length) ++ k) ++ u32le v.length) ++ (v ++ []) := by
    simp [entryBytes, List.append_assoc]
  have h4 : readExact (pre ++ entryBytes k v) (pre.length + 4 + k.length + 4) v.length
      = .ok (v, pre.length + 4 + k.length + 4 + v.length) := by
    have := readExact_chunk (((pre ++ u32le k.length) ++ k) ++ u32le v.length) v []
    rw [List.length_append, List.length_append, List.length_append,
        u32le_length, u32le_length] at this
    rw [hassoc4]
    exact this
  have hv32 : v.length < 4294967296 := by
    have : LogEntry.ENTRY_TOMBSTONE = 4294967295 := rfl
    omega
  have hvne : v.length ≠ LogEntry.ENTRY_TOMBSTONE := Nat.ne_of_lt hv
  unfold LogEntry.read
  rw [h1]
  dsimp only
  rw [decodeU32_u32le hk, h2]
  dsimp only
  rw [h3]
  dsimp only
  rw [decodeU32_u32le hv32, if_neg hvne, h4]
  simp only [Except.ok.injEq, Prod.mk.injEq, entryBytes_length, true_and]
  omega

end ParityDB

namespace ParityDB

/-! ### Structural lemmas about `LogEntry.read` -/

theorem read_ok_bounds {file : List Nat} {pos : Nat} {e : LogEntry} {p' : Nat}
    (h : LogEntry.read file pos = .ok (e, p')) :
    e.position = pos ∧ pos + 8 ≤ p' ∧ p' ≤ file.length := by
  unfold LogEntry.read at h
  cases h1 : readExact file pos 4 with
  | error e1 => rw [h1] at h; cases h
  | ok r1 =>
    obtain ⟨bs1, p1⟩ := r1
    rw [h1] at h
    dsimp only at h
    obtain ⟨hp1, hl1, -⟩ := readExact_ok h1
    cases h2 : readExact file p1 (decodeU32 bs1) with
    | error e2 => rw [h2] at h; cases h
    | ok r2 =>
      obtain ⟨key, p2⟩ := r2
      rw [h2] at h
      dsimp only at h
      obtain ⟨hp2, hl2, -⟩ := readExact_ok h2
      cases h3 : readExact file p2 4 with
      | error e3 => rw [h3] at h; cases h
      | ok r3 =>
        obtain ⟨bs3, p3⟩ := r3
        rw [h3] at h
        dsimp only at h
        obtain ⟨hp3, hl3, -⟩ := readExact_ok h3
        by_cases ht : decodeU32 bs3 = LogEntry.ENTRY_TOMBSTONE
        · rw [if_pos ht] at h
          cases h
          exact ⟨rfl, by omega, by omega⟩
        · rw [if_neg ht] at h
          cases h4 : readExact file p3 (decodeU32 bs3) with
          | error e4 => rw [h4] at h; cases h
          | ok r4 =>
            obtain ⟨val, p4⟩ := r4
            rw [h4] at h
            dsimp only at h
            obtain ⟨hp4, hl4, -⟩ := readExact_ok h4
            cases h
            exact ⟨rfl, by omega, by omega⟩

theorem read_error_eof {file : List Nat} {pos : Nat} {er : IOKind}
    (h : LogEntry.read file pos = .error er) : er = .unexpectedEof := by
  unfold LogEntry.read at h
  cases h1 : readExact file pos 4 with
  | error e1 =>
    rw [h1] at h
    dsimp only at h
    cases h
    exact (readExact_error h1).1
  | ok r1 =>
    obtain ⟨bs1, p1⟩ := r1
    rw [h1] at h
    dsimp only at h
    cases h2 : readExact file p1 (decodeU32 bs1) with
    | error e2 =>
      rw [h2] at h
      dsimp only at h
      cases h
      exact (readExact_error h2).1
    | ok r2 =>
      obtain ⟨key, p2⟩ := r2
      rw [h2] at h
      dsimp only at h
      cases h3 : readExact file p2 4 with
      | error e3 =>
        rw [h3] at h
        dsimp only at h
        cases h
        exact (readExact_error h3).1
      | ok r3 =>
        obtain ⟨bs3, p3⟩ := r3
        rw [h3] at h
        dsimp only at h
        by_cases ht : decodeU32 bs3 = LogEntry.ENTRY_TOMBSTONE
        · rw [if_pos ht] at h
          cases h
        · rw [if_neg ht] at h
          cases h4 : readExact file p3 (decodeU32 bs3) with
          | error e4 =>
            rw [h4] at h
            dsimp only at h
            cases h
            exact (readExact_error h4).1
          | ok r4 =>
            obtain ⟨val, p4⟩ := r4
            rw [h4] at h
            dsimp only at h
            cases h

theorem read_oob {file : List Nat} {pos : Nat} (h : file.length < pos + 4) :
    LogEntry.read file pos = .error .unexpectedEof := by
  unfold LogEntry.read
  rw [readExact_oob h]

end ParityDB

namespace ParityDB

/-! ### Scan lemmas -/

theorem scanItems_stuck (fuel : Nat) {file : List Nat} {pos : Nat} (h : file.length < pos + 4) :
    scanItems fuel file pos = ([], pos) := by
  cases fuel with
  | zero => rfl
  | succ fuel =>
    rw [scanItems, read_oob h]

theorem scanItems_items_ok (fuel : Nat) :
    ∀ (file : List Nat) (pos : Nat) (it : Except IOKind LogEntry),
      it ∈ (scanItems fuel file pos).1 → ∃ e, it = .ok e := by
  induction fuel with
  | zero =>
    intro _ _ _ h
    simp [scanItems] at h
  | succ fuel ih =>
    intro file pos it h
    rw [scanItems] at h
    cases hread : LogEntry.read file pos with
    | error er =>
      have := read_error_eof hread
      subst this
      rw [hread] at h
      dsimp only at h
      simp at h
    | ok res =>
      obtain ⟨e, p'⟩ := res
      rw [hread] at h
      dsimp only at h
      rcases List.mem_cons.mp h with h0 | h0
      · exact ⟨e, h0⟩
      · exact ih file p' it h0

end ParityDB

namespace ParityDB

end ParityDB

namespace ParityDB

/-! ### Write-path lemmas -/

theorem writeBytes_ok {f : WFile} {bs : List Nat} {u : Unit} {f' : WFile}
    (h : writeBytes f bs = (.ok u, f')) :
    f' = { f with bytes := f.bytes ++ bs, cursor := (f.bytes ++ bs).length } := by
  unfold writeBytes at h
  cases hc : f.cap with
  | none =>
    rw [hc] at h
    dsimp only at h
    cases h
    rfl
  | some c =>
    rw [hc] at h
    dsimp only at h
    split at h
    · cases h; rfl
    · cases h

theorem writeBytes_error {f : WFile} {bs : List Nat} {e : IOKind} {f' : WFile}
    (h : writeBytes f bs = (.error e, f')) : f' = f ∧ e = .other := by
  unfold writeBytes at h
  cases hc : f.cap with
  | none =>
    rw [hc] at h
    dsimp only at h
    cases h
  | some c =>
    rw [hc] at h
    dsimp only at h
    split at h
    · cases h
    · cases h
      exact ⟨rfl, rfl⟩

theorem write_ok {f : WFile} {k v : List Nat} {pos : Nat} {f' : WFile}
    (h : LogEntry.write f k v = (.ok pos, f')) :
    pos = f.cursor ∧
    f' = { bytes := f.bytes ++ entryBytes k v,
           cursor := (f.bytes ++ entryBytes k v).length, cap := f.cap } := by
  unfold LogEntry.write at h
  cases h1 : writeBytes f (u32le k.length) with
  | mk r1 f1 =>
    rw [h1] at h
    cases r1 with
    | error e1 => dsimp only at h; cases h
    | ok u1 =>
      dsimp only at h
      cases h2 : writeBytes f1 k with
      | mk r2 f2 =>
        rw [h2] at h
        cases r2 with
        | error e2 => dsimp only at h; cases h
        | ok u2 =>
          dsimp only at h
          cases h3 : writeBytes f2 (u32le v.length) with
          | mk r3 f3 =>
            rw [h3] at h
            cases r3 with
            | error e3 => dsimp only at h; cases h
            | ok u3 =>
              dsimp only at h
              cases h4 : writeBytes f3 v with
              | mk r4 f4 =>
                rw [h4] at h
                cases r4 with
                | error e4 => dsimp only at h; cases h
                | ok u4 =>
                  dsimp only at h
                  cases h
                  refine ⟨rfl, ?_⟩
                  rw [writeBytes_ok h4, writeBytes_ok h3, writeBytes_ok h2, writeBytes_ok h1]
                  simp [entryBytes, List.append_assoc, List.length_append]

theorem write_deleted_error {f : WFile} {k : List Nat} {e : IOKind} {f' : WFile}
    (h : LogEntry.write_deleted f k = (.error e, f')) :
    f'.bytes.length < f.bytes.length + (tombstoneBytes k).length ∧ f'.cap = f.cap := by
  have htl : (tombstoneBytes k).length = 8 + k.length := tombstoneBytes_length k
  unfold LogEntry.write_deleted at h
  cases h1 : writeBytes f (u32le k.length) with
  | mk r1 f1 =>
    rw [h1] at h
    cases r1 with
    | error e1 =>
      dsimp only at h
      cases h
      rw [(writeBytes_error h1).1]
      exact ⟨by omega, rfl⟩
    | ok u1 =>
      dsimp only at h
      have hf1 := writeBytes_ok h1
      cases h2 : writeBytes f1 k with
      | mk r2 f2 =>
        rw [h2] at h
        cases r2 with
        | error e2 =>
          dsimp only at h
          cases h
          rw [(writeBytes_error h2).1, hf1]
          refine ⟨?_, rfl⟩
          simp only [List.length_append, u32le_length, htl]
          omega
        | ok u2 =>
          dsimp only at h
          have hf2 := writeBytes_ok h2
          cases h3 : writeBytes f2 (u32le LogEntry.ENTRY_TOMBSTONE) with
          | mk r3 f3 =>
            rw [h3] at h
            cases r3 with
            | error e3 =>
              dsimp only at h
              cases h
              rw [(writeBytes_error h3).1, hf2, hf1]
              refine ⟨?_, rfl⟩
              simp only [List.length_append, u32le_length, htl]
              omega
            | ok u3 =>
              dsimp only at h
              cases h

/-! ### State-level characterizations -/

theorem insert_error {s : CState} {k v : List Nat} {e : IOKind} {f' : WFile}
    (h : LogEntry.write s.file k v = (.error e, f')) :
    Collision.insert s k v = (.error e, { s with file := f' }) := by
  unfold Collision.insert
  rw [h]

theorem delete_absent {s : CState} {k : List Nat} (h : mapGet s.index k = none) :
    Collision.delete s k = (.ok (), s) := by
  unfold Collision.delete
  rw [mapExtract_absent h]

theorem delete_present_ok {s : CState} {k : List Nat} {e0 : IndexEntry} {pos : Nat} {fw : WFile}
    (h : mapGet s.index k = some e0) (hw : LogEntry.write_deleted s.file k = (.ok pos, fw)) :
    Collision.delete s k = (.ok (), { s with index := (mapExtract s.index k).2, file := fw }) := by
  unfold Collision.delete
  cases hx : mapExtract s.index k with
  | mk r idx' =>
    have hr : r = some e0 := by
      have hfst := mapExtract_fst s.index k
      rw [hx] at hfst
      dsimp only at hfst
      rw [hfst, h]
    subst hr
    dsimp only
    rw [hw]

theorem delete_present_error {s : CState} {k : List Nat} {e0 : IndexEntry} {er : IOKind}
    {fw : WFile}
    (h : mapGet s.index k = some e0) (hw : LogEntry.write_deleted s.file k = (.error er, fw)) :
    Collision.delete s k =
      (.error er, { s with index := (mapExtract s.index k).2, file := fw }) := by
  unfold Collision.delete
  cases hx : mapExtract s.index k with
  | mk r idx' =>
    have hr : r = some e0 := by
      have hfst := mapExtract_fst s.index k
      rw [hx] at hfst
      dsimp only at hfst
      rw [hfst, h]
    subst hr
    dsimp only
    rw [hw]

end ParityDB

namespace ParityDB

end ParityDB

namespace ParityDB

/-! ### `get` and iterator helpers -/

theorem get_notFound {s : CState} {k : List Nat} (hm : mapGet s.index k = none) :
    Collision.get s k = .notFound := by
  unfold Collision.get
  rw [hm]

theorem get_found {s : CState} {k : List Nat} {e : IndexEntry} {v : List Nat} {p' : Nat}
    (hm : mapGet s.index k = some e)
    (hr : LogEntry.read s.file.bytes e.position =
      .ok ({ position := e.position, key := k, value := some v }, p')) :
    Collision.get s k = .found v := by
  unfold Collision.get
  rw [hm]
  dsimp only
  rw [hr]
  dsimp only
  rw [if_pos rfl]

end ParityDB

namespace ParityDB

/-! ### Claim theorems -/

theorem drop_append_add (pre rest : List Nat) (d : Nat) :
    (pre ++ rest).drop (pre.length + d) = rest.drop d := by
  induction pre with
  | nil => simp
  | cons a t ih =>
    have hc : t.length + 1 + d = (t.length + d) + 1 := by omega
    simp only [List.cons_append, List.length_cons, hc, List.drop_succ_cons]
    exact ih

/-- Claim C4, counterexample: on the file `[1,0,0,0]` the key-length field is
readable and decodes to 1, but the key byte is missing, so end-of-data is hit
partway through a record; the scanner nevertheless ends cleanly with an empty
item sequence — it does not end with an error item as the claim requires. -/
theorem claim_C4_counterexample :
    readExact [1, 0, 0, 0] 0 4 = .ok ([1, 0, 0, 0], 4) ∧
    decodeU32 [1, 0, 0, 0] = 1 ∧
    readExact [1, 0, 0, 0] 4 1 = .error .unexpectedEof ∧
    LogEntry.read [1, 0, 0, 0] 0 = .error .unexpectedEof ∧
    logItems [1, 0, 0, 0] 0 = [] := by
  decide

/-- Claim C4, amended: a read failing with unexpected end-of-data ends the
scan cleanly with no error item, whether the data ran out exactly at a record
boundary or partway through a record; over an in-memory byte source every
yielded item is a decoded record and no error item is ever produced. -/
theorem claim_C4_amended_scanner (file : List Nat) (pos : Nat) :
    (∀ it ∈ logItems file pos, ∃ e, it = .ok e) ∧
    (file.length < pos + 4 → logItems file pos = []) := by
  constructor
  · exact fun it hit => scanItems_items_ok _ _ _ it hit
  · intro h
    unfold logItems
    rw [scanItems_stuck _ h]

theorem claim_C4_amended_witness : logItems [1, 0, 0, 0] 5 = [] :=
  (claim_C4_amended_scanner [1, 0, 0, 0] 5).2 (by decide)

/-- Claim C6: deleting a key that is absent from the index returns success
and leaves the whole state — log file bytes and index alike — unchanged; in
particular no tombstone is appended. -/
theorem claim_C6_delete_absent_noop (s : CState) (k : List Nat)
    (h : mapGet s.index k = none) :
    Collision.delete s k = (.ok (), s) :=
  delete_absent h

theorem claim_C6_witness :
    Collision.delete (Collision.createState none 7) [48]
      = (.ok (), Collision.createState none 7) :=
  claim_C6_delete_absent_noop (Collision.createState none 7) [48] (by decide)

/-- Claim C8: if every index entry is backed by a live record with the same
key (the index/log consistency invariant), then a `get` on any indexed key
decodes a record whose key matches and whose value is present, and returns
that value — the key-equality assertion and the tombstone `expect` never
fire.  Conversely, a mismatched key or a tombstone at an indexed position
makes `get` panic rather than return not-found. -/
theorem claim_C8_get_respects_invariant :
    (∀ (s : CState) (k : List Nat) (e : IndexEntry), IndexConsistent s →
      mapGet s.index k = some e →
      ∃ v p', LogEntry.read s.file.bytes e.position =
          .ok ({ position := e.position, key := k, value := some v }, p') ∧
        Collision.get s k = .found v) ∧
    (∀ (s : CState) (k : List Nat) (e : IndexEntry) (r : LogEntry) (p' : Nat),
      mapGet s.index k = some e →
      LogEntry.read s.file.bytes e.position = .ok (r, p') →
      (r.key ≠ k ∨ r.value = none) → Collision.get s k = .panicked) := by
  constructor
  · intro s k e hinv hm
    have hmem : (k, e) ∈ s.index := mapGet_mem hm
    have hcons := hinv (k, e) hmem
    unfold entryConsistent at hcons
    cases hr : LogEntry.read s.file.bytes e.position with
    | error er => rw [hr] at hcons; cases hcons
    | ok res =>
      obtain ⟨r, p'⟩ := res
      rw [hr] at hcons
      dsimp only at hcons
      rw [Bool.and_eq_true] at hcons
      obtain ⟨hkey, hsome⟩ := hcons
      have hkeq : r.key = k := by simpa using hkey
      obtain ⟨v, hv⟩ := Option.isSome_iff_exists.mp hsome
      have hrec : r = { position := e.position, key := k, value := some v } := by
        have hrp := (read_ok_bounds hr).1
        rw [← hrp, ← hkeq, ← hv]
      rw [hrec] at hr
      refine ⟨v, p', ?_, get_found hm hr⟩
      rw [hrec]
  · intro s k e r p' hm hr hbad
    unfold Collision.get
    rw [hm]
    dsimp only
    rw [hr]
    dsimp only
    rcases hbad with hne | hvn
    · rw [if_neg hne]
    · by_cases hkk : r.key = k
      · rw [if_pos hkk, hvn]
      · rw [if_neg hkk]

/-- Claim C9: if the log append inside `insert` fails, `insert` returns that
same error and the in-memory index is exactly as before the call — the index
is only updated after the append succeeds. -/
theorem claim_C9_insert_error_keeps_index (s : CState) (k v : List Nat) (e : IOKind)
    (f' : WFile) (h : LogEntry.write s.file k v = (.error e, f')) :
    Collision.insert s k v = (.error e, { s with file := f' }) ∧
    (Collision.insert s k v).2.index = s.index := by
  refine ⟨insert_error h, ?_⟩
  rw [insert_error h]

theorem claim_C9_witness :
    Collision.insert (Collision.createState (some 0) 3) [] []
      = (.error .other, Collision.createState (some 0) 3) ∧
    (Collision.insert (Collision.createState (some 0) 3) [] []).2.index
      = (Collision.createState (some 0) 3).index :=
  claim_C9_insert_error_keeps_index (Collision.createState (some 0) 3) [] [] .other
    { bytes := [], cursor := 0, cap := some 0 } (by decide)

/-- Claim C10: `delete` removes a present key from the index before the
tombstone append; if that append fails, the error is returned but the key is
already gone from the index, a subsequent `get` reports not-found, and no
complete tombstone record reached the file (its bytes grew by strictly less
than a tombstone record). -/
theorem claim_C10_delete_error_key_already_removed (s : CState) (k : List Nat)
    (er : IOKind) (s' : CState) (hs : SortedMap s.index)
    (h : Collision.delete s k = (.error er, s')) :
    mapGet s'.index k = none ∧ Collision.get s' k = .notFound ∧
    s'.file.bytes.length < s.file.bytes.length + (tombstoneBytes k).length := by
  cases hget : mapGet s.index k with
  | none =>
    rw [delete_absent hget] at h
    cases h
  | some e0 =>
    cases hwd : LogEntry.write_deleted s.file k with
    | mk r fw =>
      cases r with
      | ok pos =>
        rw [delete_present_ok hget hwd] at h
        cases h
      | error e =>
        rw [delete_present_error hget hwd] at h
        cases h
        obtain ⟨hlen, -⟩ := write_deleted_error hwd
        have hnone : mapGet (mapExtract s.index k).2 k = none := mapGet_mapExtract_self hs
        exact ⟨hnone, get_notFound hnone, hlen⟩

end ParityDB

namespace ParityDB

end ParityDB

namespace ParityDB

/-- Claim C7: for a key/value within the data-model bounds (key length in 32
bits, value length at most one less than the sentinel), a successful
`LogEntry::write` stores a 32-bit value-length field different from the
all-ones sentinel, and decoding the emitted record — which begins at the
end-of-file offset that held before the append — classifies it as an insert
carrying the value, never as a tombstone. -/
theorem claim_C7_sentinel_never_written (f : WFile) (k v : List Nat) (pos : Nat)
    (f' : WFile) (hk : k.length < 4294967296) (hv : v.length < 4294967295)
    (h : LogEntry.write f k v = (.ok pos, f')) :
    valueSizeField f'.bytes f.bytes.length k.length ≠ LogEntry.ENTRY_TOMBSTONE ∧
    ∃ p', LogEntry.read f'.bytes f.bytes.length =
      .ok ({ position := f.bytes.length, key := k, value := some v }, p') := by
  obtain ⟨-, hf⟩ := write_ok h
  subst hf
  constructor
  · unfold valueSizeField
    have h1 : f.bytes.length + 4 + k.length = f.bytes.length + (4 + k.length) := by omega
    have h2 : entryBytes k v = (u32le k.length ++ k) ++ (u32le v.length ++ v) := by
      simp [entryBytes, List.append_assoc]
    show decodeU32 (((f.bytes ++ entryBytes k v).drop
        (f.bytes.length + 4 + k.length)).take 4) ≠ LogEntry.ENTRY_TOMBSTONE
    rw [h1, h2, drop_append_add]
    have h3 : 4 + k.length = (u32le k.length ++ k).length := by
      simp [u32le_length]
    rw [h3, List.drop_left]
    have h4 : ((u32le v.length ++ v).take 4) = u32le v.length := by
      rw [show (4 : Nat) = (u32le v.length).length from (u32le_length _).symm, List.take_left]
    rw [h4, decodeU32_u32le (by omega)]
    exact Nat.ne_of_lt hv
  · exact ⟨_, read_entry_record f.bytes k v hk hv⟩

theorem claim_C7_witness :
    valueSizeField (entryBytes [48] [49]) 0 1 ≠ LogEntry.ENTRY_TOMBSTONE ∧
    ∃ p', LogEntry.read (entryBytes [48] [49]) 0 =
      .ok ({ position := 0, key := [48], value := some [49] }, p') :=
  claim_C7_sentinel_never_written { bytes := [], cursor := 0, cap := none } [48] [49] 0
    { bytes := entryBytes [48] [49], cursor := 10, cap := none }
    (by decide) (by decide) (by decide)

theorem claim_C8_witness :
    (∃ v p', LogEntry.read (entryBytes [48] [49]) 0 =
        .ok ({ position := 0, key := [48], value := some v }, p') ∧
      Collision.get { index := [([48], { position := 0, size := 10 })], pfx := 0,
                      file := { bytes := entryBytes [48] [49], cursor := 10, cap := none } } [48]
        = .found v) ∧
    Collision.get { index := [([49], { position := 0, size := 10 })], pfx := 0,
                    file := { bytes := entryBytes [48] [49], cursor := 10, cap := none } } [49]
      = .panicked :=
  ⟨claim_C8_get_respects_invariant.1
      { index := [([48], { position := 0, size := 10 })], pfx := 0,
        file := { bytes := entryBytes [48] [49], cursor := 10, cap := none } } [48]
      { position := 0, size := 10 } (by decide) (by decide),
   claim_C8_get_respects_invariant.2
      { index := [([49], { position := 0, size := 10 })], pfx := 0,
        file := { bytes := entryBytes [48] [49], cursor := 10, cap := none } } [49]
      { position := 0, size := 10 } { position := 0, key := [48], value := some [49] } 10
      (by decide) (by decide) (Or.inl (by decide))⟩

theorem claim_C10_witness :
    mapGet (Collision.delete
        { index := [([48], { position := 0, size := 10 })], pfx := 0,
          file := { bytes := entryBytes [48] [49], cursor := 10, cap := some 10 } } [48]).2.index [48]
      = none ∧
    Collision.get (Collision.delete
        { index := [([48], { position := 0, size := 10 })], pfx := 0,
          file := { bytes := entryBytes [48] [49], cursor := 10, cap := some 10 } } [48]).2 [48]
      = .notFound ∧
    (Collision.delete
        { index := [([48], { position := 0, size := 10 })], pfx := 0,
          file := { bytes := entryBytes [48] [49], cursor := 10, cap := some 10 } } [48]).2.file.bytes.length
      < (entryBytes [48] [49]).length + (tombstoneBytes [48]).length :=
  claim_C10_delete_error_key_already_removed
    { index := [([48], { position := 0, size := 10 })], pfx := 0,
      file := { bytes := entryBytes [48] [49], cursor := 10, cap := some 10 } } [48] .other
    (Collision.delete
      { index := [([48], { position := 0, size := 10 })], pfx := 0,
        file := { bytes := entryBytes [48] [49], cursor := 10, cap := some 10 } } [48]).2
    (by decide) (by decide)

/-- Claim C1, code bug: `insert` records `writer.seek(SeekFrom::Current(0))`
as the record's position, but on a freshly opened (`O_APPEND`) non-empty log
that cursor is 0, not end-of-file.  The file below is exactly what a
previous session's `insert([97],[49])` wrote; opening it and inserting
`([97],[51])` succeeds, the record lands at offset 10, yet the index stores
position 0, so `get [97]` decodes the stale record at offset 0 and returns
the old value `[49]` instead of `[51]` — and the in-code invariant that the
index maps keys to their record's position is broken. -/
theorem claim_C1_code_bug :
    (Collision.insert (Collision.createState none 0) [97] [49]).2.file.bytes
      = entryBytes [97] [49] ∧
    Collision.openState (entryBytes [97] [49]) none 0 = .ok
      { index := [([97], { position := 0, size := 10 })], pfx := 0,
        file := { bytes := entryBytes [97] [49], cursor := 0, cap := none } } ∧
    (Collision.insert
      { index := [([97], { position := 0, size := 10 })], pfx := 0,
        file := { bytes := entryBytes [97] [49], cursor := 0, cap := none } } [97] [51]).1
      = .ok () ∧
    Collision.get (Collision.insert
      { index := [([97], { position := 0, size := 10 })], pfx := 0,
        file := { bytes := entryBytes [97] [49], cursor := 0, cap := none } } [97] [51]).2 [97]
      = .found [49] ∧
    ¬ Collision.get (Collision.insert
      { index := [([97], { position := 0, size := 10 })], pfx := 0,
        file := { bytes := entryBytes [97] [49], cursor := 0, cap := none } } [97] [51]).2 [97]
      = .found [51] := by
  decide

/-- Claim C2, code bug: after opening the non-empty log holding
`[97] ↦ [49]` and inserting `([98],[50])`, the incremental index stores
position 0 for `[98]` while replay (`build_index`) computes the true offset
10, so the rebuilt index differs from the in-memory one; observably, `get
[98]` before closing panics on the key assert (it decodes the offset-0
record whose key is `[97]`), while after reopening it returns `[50]` — the
pre-close and post-reopen observations diverge. -/
theorem claim_C2_code_bug :
    (Collision.insert
      { index := [([97], { position := 0, size := 10 })], pfx := 0,
        file := { bytes := entryBytes [97] [49], cursor := 0, cap := none } } [98] [50]).1
      = .ok () ∧
    (Collision.insert
      { index := [([97], { position := 0, size := 10 })], pfx := 0,
        file := { bytes := entryBytes [97] [49], cursor := 0, cap := none } } [98] [50]).2.index
      = [([97], { position := 0, size := 10 }), ([98], { position := 0, size := 10 })] ∧
    Collision.build_index (Collision.insert
      { index := [([97], { position := 0, size := 10 })], pfx := 0,
        file := { bytes := entryBytes [97] [49], cursor := 0, cap := none } } [98] [50]).2.file.bytes
      = .ok [([97], { position := 0, size := 10 }), ([98], { position := 10, size := 10 })] ∧
    ¬ Collision.build_index (Collision.insert
      { index := [([97], { position := 0, size := 10 })], pfx := 0,
        file := { bytes := entryBytes [97] [49], cursor := 0, cap := none } } [98] [50]).2.file.bytes
      = .ok (Collision.insert
        { index := [([97], { position := 0, size := 10 })], pfx := 0,
          file := { bytes := entryBytes [97] [49], cursor := 0, cap := none } } [98] [50]).2.index ∧
    Collision.get (Collision.insert
      { index := [([97], { position := 0, size := 10 })], pfx := 0,
        file := { bytes := entryBytes [97] [49], cursor := 0, cap := none } } [98] [50]).2 [98]
      = .panicked ∧
    Collision.openState (Collision.insert
      { index := [([97], { position := 0, size := 10 })], pfx := 0,
        file := { bytes := entryBytes [97] [49], cursor := 0, cap := none } } [98] [50]).2.file.bytes
      none 0 = .ok
      { index := [([97], { position := 0, size := 10 }), ([98], { position := 10, size := 10 })],
        pfx := 0,
        file := { bytes := entryBytes [97] [49] ++ entryBytes [98] [50], cursor := 0, cap := none } } ∧
    Collision.get
      { index := [([97], { position := 0, size := 10 }), ([98], { position := 10, size := 10 })],
        pfx := 0,
        file := { bytes := entryBytes [97] [49] ++ entryBytes [98] [50], cursor := 0, cap := none } } [98]
      = .found [50] := by
  decide

/-- Claim C3, code bug: in the same open-then-insert scenario the index maps
`[98]` to position 0, but the live record at offset 0 has key `[97]` — an
`IndexEntry` whose position points at a non-tombstone record with a
different key, violating the invariant the claim states (which explicitly
covers "create or open, then any inserts and deletes"). -/
theorem claim_C3_code_bug :
    (Collision.insert
      { index := [([97], { position := 0, size := 10 })], pfx := 0,
        file := { bytes := entryBytes [97] [49], cursor := 0, cap := none } } [98] [50]).1
      = .ok () ∧
    mapGet (Collision.insert
      { index := [([97], { position := 0, size := 10 })], pfx := 0,
        file := { bytes := entryBytes [97] [49], cursor := 0, cap := none } } [98] [50]).2.index [98]
      = some { position := 0, size := 10 } ∧
    LogEntry.read (Collision.insert
      { index := [([97], { position := 0, size := 10 })], pfx := 0,
        file := { bytes := entryBytes [97] [49], cursor := 0, cap := none } } [98] [50]).2.file.bytes 0
      = .ok ({ position := 0, key := [97], value := some [49] }, 10) ∧
    ¬ ([97] : List Nat) = [98] := by
  decide

/-- Claim C5, code bug: in the open-then-insert scenario, `iterate` walks
the two index entries — both pointing at position 0 — and yields the decoded
pair `([97],[49])` twice: a duplicate pair instead of one pair per live key,
the keys it yields are not strictly ascending, and the live pair
`([98],[50])` is never yielded. -/
theorem claim_C5_code_bug :
    (Collision.insert
      { index := [([97], { position := 0, size := 10 })], pfx := 0,
        file := { bytes := entryBytes [97] [49], cursor := 0, cap := none } } [98] [50]).1
      = .ok () ∧
    Collision.iterItems
      (Collision.insert
        { index := [([97], { position := 0, size := 10 })], pfx := 0,
          file := { bytes := entryBytes [97] [49], cursor := 0, cap := none } } [98] [50]).2.file.bytes
      (Collision.insert
        { index := [([97], { position := 0, size := 10 })], pfx := 0,
          file := { bytes := entryBytes [97] [49], cursor := 0, cap := none } } [98] [50]).2.index
      = [.ok [97] [49], .ok [97] [49]] := by
  decide

end ParityDB
